import Mathlib

/-!
Verification of the dealership RAG engine against its specification.

The Python sources are embedded shallowly:

* Python `str` values are modelled as `List Char` (a Python string is a
  sequence of code points).
* Python `float` values are modelled as `ℚ` (exact arithmetic; the spec
  claims concern only equalities, orderings and simple sums of these
  scores).
* Python object identity (`id(obj)`) is modelled by an explicit `oid`
  field on document records.
* External collaborators (the Pinecone store, the langchain
  `BM25Retriever`, the Voyage/Anthropic/Cohere network clients, Redis,
  `html.unescape`, `float()`) are modelled as explicit function
  parameters or oracle inputs; everything implemented inside the
  repository is translated directly from its source.
-/

/-! ## Python string primitives (over `List Char`) -/

/-- Python `needle in hay` substring test, on code-point lists. -/
def containsSub (hay needle : List Char) : Bool :=
  match hay with
  | [] => needle.isEmpty
  | _ :: t => needle.isPrefixOf hay || containsSub t needle

/-- Python `str.lower()` (ASCII-adequate for the keyword tables used here). -/
def pyLower (s : List Char) : List Char :=
  s.map Char.toLower

/-- Python `str.strip()`: remove leading and trailing whitespace. -/
def pyStrip (s : List Char) : List Char :=
  ((s.dropWhile Char.isWhitespace).reverse.dropWhile Char.isWhitespace).reverse

theorem containsSub_self (l : List Char) : containsSub l l = true := by
  cases l with
  | nil => rfl
  | cons a t =>
    unfold containsSub
    simp [List.isPrefixOf_iff_prefix]

theorem containsSub_append_right (xs ys m : List Char)
    (h : containsSub ys m = true) : containsSub (xs ++ ys) m = true := by
  induction xs with
  | nil => simpa using h
  | cons a t ih =>
    unfold containsSub
    simp only [List.cons_append]
    cases hp : m.isPrefixOf (a :: (t ++ ys)) with
    | true => simp
    | false => simpa using ih

/-! ## SHA-256 (`hashlib.sha256`, big-endian, over UTF-8 bytes)

32-bit words are plain `Nat`s kept below `2 ^ 32` by explicit `% 2 ^ 32`
reductions. All recursion is structural so that the kernel can evaluate
digests of concrete inputs.
-/

namespace SHA256

def mask32 : Nat := 4294967295

def add32 (a b : Nat) : Nat := (a + b) % 4294967296

def bnot32 (x : Nat) : Nat := Nat.xor x mask32

def rotr32 (x n : Nat) : Nat := (x >>> n) ||| ((x <<< (32 - n)) &&& mask32)

def ch (x y z : Nat) : Nat := Nat.xor (x &&& y) ((bnot32 x) &&& z)

def maj (x y z : Nat) : Nat := Nat.xor (Nat.xor (x &&& y) (x &&& z)) (y &&& z)

def bigSigma0 (x : Nat) : Nat := Nat.xor (Nat.xor (rotr32 x 2) (rotr32 x 13)) (rotr32 x 22)

def bigSigma1 (x : Nat) : Nat := Nat.xor (Nat.xor (rotr32 x 6) (rotr32 x 11)) (rotr32 x 25)

def smallSigma0 (x : Nat) : Nat := Nat.xor (Nat.xor (rotr32 x 7) (rotr32 x 18)) (x >>> 3)

def smallSigma1 (x : Nat) : Nat := Nat.xor (Nat.xor (rotr32 x 17) (rotr32 x 19)) (x >>> 10)

/-- The 64 round constants (fractional parts of the cube roots of the
first 64 primes), in decimal. -/
def K : List Nat :=
  [1116352408, 1899447441, 3049323471, 3921009573, 961987163, 1508970993,
   2453635748, 2870763221, 3624381080, 310598401, 607225278, 1426881987,
   1925078388, 2162078206, 2614888103, 3248222580, 3835390401, 4022224774,
   264347078, 604807628, 770255983, 1249150122, 1555081692, 1996064986,
   2554220882, 2821834349, 2952996808, 3210313671, 3336571891, 3584528711,
   113926993, 338241895, 666307205, 773529912, 1294757372, 1396182291,
   1695183700, 1986661051, 2177026350, 2456956037, 2730485921, 2820302411,
   3259730800, 3345764771, 3516065817, 3600352804, 4094571909, 275423344,
   430227734, 506948616, 659060556, 883997877, 958139571, 1322822218,
   1537002063, 1747873779, 1955562222, 2024104815, 2227730452, 2361852424,
   2428436474, 2756734187, 3204031479, 3329325298]

/-- The initial hash state (fractional parts of the square roots of the
first 8 primes), in decimal. -/
def H0 : List Nat :=
  [1779033703, 3144134277, 1013904242, 2773480762,
   1359893119, 2600822924, 528734635, 1541459225]

/-- UTF-8 encoding of a single code point. -/
def utf8Bytes (c : Char) : List Nat :=
  let n := c.toNat
  if n < 0x80 then [n]
  else if n < 0x800 then
    [0xC0 ||| (n >>> 6), 0x80 ||| (n &&& 0x3F)]
  else if n < 0x10000 then
    [0xE0 ||| (n >>> 12), 0x80 ||| ((n >>> 6) &&& 0x3F), 0x80 ||| (n &&& 0x3F)]
  else
    [0xF0 ||| (n >>> 18), 0x80 ||| ((n >>> 12) &&& 0x3F), 0x80 ||| ((n >>> 6) &&& 0x3F),
     0x80 ||| (n &&& 0x3F)]

def strBytes (s : List Char) : List Nat := s.flatMap utf8Bytes

/-- Big-endian 8-byte encoding of the bit length. -/
def lenBytes (n : Nat) : List Nat :=
  [(n >>> 56) % 256, (n >>> 48) % 256, (n >>> 40) % 256, (n >>> 32) % 256,
   (n >>> 24) % 256, (n >>> 16) % 256, (n >>> 8) % 256, n % 256]

/-- Append the `0x80` marker, zero padding to 56 mod 64, and the length. -/
def padMessage (msg : List Nat) : List Nat :=
  let L := msg.length
  let zeros := (119 - L % 64) % 64
  msg ++ 0x80 :: List.replicate zeros 0 ++ lenBytes (8 * L)

def takeDrop : Nat → List Nat → (List Nat × List Nat)
  | 0, l => ([], l)
  | _ + 1, [] => ([], [])
  | n + 1, a :: l =>
    let p := takeDrop n l
    (a :: p.1, p.2)

/-- Split into 64-byte blocks; `fuel` bounds the recursion structurally. -/
def chunks : Nat → List Nat → List (List Nat)
  | 0, _ => []
  | _ + 1, [] => []
  | fuel + 1, l =>
    let p := takeDrop 64 l
    p.1 :: chunks fuel p.2

/-- Big-endian 32-bit words from bytes. -/
def toWords : List Nat → List Nat
  | b0 :: b1 :: b2 :: b3 :: rest => (((b0 * 256 + b1) * 256 + b2) * 256 + b3) :: toWords rest
  | _ => []

/-- Extend the 16-word schedule by `n` further words. -/
def extendSchedule : List Nat → Nat → List Nat
  | w, 0 => w
  | w, n + 1 =>
    let t :=
      add32 (add32 (smallSigma1 (w.getD (w.length - 2) 0)) (w.getD (w.length - 7) 0))
        (add32 (smallSigma0 (w.getD (w.length - 15) 0)) (w.getD (w.length - 16) 0))
    extendSchedule (w ++ [t]) n

/-- One round of the compression function on the 8-word working state. -/
def round (st : List Nat) (kw : Nat × Nat) : List Nat :=
  let a := st.getD 0 0
  let b := st.getD 1 0
  let c := st.getD 2 0
  let d := st.getD 3 0
  let e := st.getD 4 0
  let f := st.getD 5 0
  let g := st.getD 6 0
  let h := st.getD 7 0
  let t1 := add32 (add32 (add32 h (bigSigma1 e)) (add32 (ch e f g) kw.1)) kw.2
  let t2 := add32 (bigSigma0 a) (maj a b c)
  [add32 t1 t2, a, b, c, add32 d t1, e, f, g]

def compressBlock (h : List Nat) (block : List Nat) : List Nat :=
  let w := extendSchedule (toWords block) 48
  let st := (K.zip w).foldl round h
  [add32 (h.getD 0 0) (st.getD 0 0), add32 (h.getD 1 0) (st.getD 1 0),
   add32 (h.getD 2 0) (st.getD 2 0), add32 (h.getD 3 0) (st.getD 3 0),
   add32 (h.getD 4 0) (st.getD 4 0), add32 (h.getD 5 0) (st.getD 5 0),
   add32 (h.getD 6 0) (st.getD 6 0), add32 (h.getD 7 0) (st.getD 7 0)]

def wordBytes (w : Nat) : List Nat :=
  [(w >>> 24) % 256, (w >>> 16) % 256, (w >>> 8) % 256, w % 256]

/-- The 32 digest bytes of a byte message. -/
def sha256Bytes (msg : List Nat) : List Nat :=
  let padded := padMessage msg
  let blocks := chunks padded.length padded
  (blocks.foldl compressBlock H0).flatMap wordBytes

def hexDigit (n : Nat) : Char := "0123456789abcdef".data.getD n '0'

def byteHex (b : Nat) : List Char := [hexDigit (b / 16), hexDigit (b % 16)]

/-- `hashlib.sha256(s.encode()).hexdigest()` as a code-point list. -/
def sha256hexChars (s : List Char) : List Char :=
  (sha256Bytes (strBytes s)).flatMap byteHex

end SHA256

set_option maxRecDepth 100000 in
/-- SHA-256 known-answer check (FIPS 180-2 test vector for "abc"). -/
example :
    SHA256.sha256hexChars "abc".data =
      "ba7816bf8f01cfea414140de5dae2223b00361a396177a9cb410ff61f20015ad".data := by
  decide

/-! ## Circuit breaker (`src/src/circuit_breaker.py`)

`CircuitBreaker.__call__` wraps an async callable. Wall-clock instants
(`time.time()`) are passed in explicitly as rationals; the outcome of the
wrapped callable is an oracle input.
-/

namespace CircuitBreaker

inductive CircState where
  | closed
  | opened
  | halfOpen
deriving DecidableEq

structure Breaker where
  failureThreshold : Nat
  timeoutDuration : ℚ
  successThreshold : Nat

structure CBState where
  state : CircState
  failureCount : Nat
  successCount : Nat
  lastFailureTime : Option ℚ
deriving DecidableEq

/-- `__init__`: state CLOSED, counters zero, no failure recorded. -/
def initState : CBState :=
  { state := .closed, failureCount := 0, successCount := 0, lastFailureTime := none }

/-- Outcome of invoking the wrapped callable. -/
inductive Outcome where
  | success
  | failure
deriving DecidableEq

structure CallResult where
  newState : CBState
  /-- whether the wrapped callable was invoked -/
  invoked : Bool
  /-- whether the call raised `CircuitBreakerOpenError` -/
  rejectedOpen : Bool
  /-- whether the wrapped callable's exception propagated -/
  raised : Bool
deriving DecidableEq

/-- One pass through the `wrapper` body of `CircuitBreaker.__call__`,
at wall-clock time `now`. -/
def call (b : Breaker) (s : CBState) (now : ℚ) (o : Outcome) : CallResult :=
  -- OPEN: transition to HALF_OPEN when the timeout has expired, else reject.
  -- `if self.last_failure_time and (now - lf) > timeout`: a recorded time of
  -- exactly 0.0 is falsy in Python, hence the `lf ≠ 0` conjunct.
  let pre :=
    if s.state = .opened then
      match s.lastFailureTime with
      | some lf =>
        if lf ≠ 0 ∧ b.timeoutDuration < now - lf then
          some { s with state := .halfOpen, successCount := 0 }
        else none
      | none => none
    else some s
  match pre with
  | none => { newState := s, invoked := false, rejectedOpen := true, raised := false }
  | some s1 =>
    match o with
    | .success =>
      let s2 :=
        if s1.state = .halfOpen then
          let sc := s1.successCount + 1
          if b.successThreshold ≤ sc then
            { s1 with state := .closed, successCount := sc, failureCount := 0 }
          else { s1 with successCount := sc }
        else if s1.state = .closed then { s1 with failureCount := 0 }
        else s1
      { newState := s2, invoked := true, rejectedOpen := false, raised := false }
    | .failure =>
      let fc := s1.failureCount + 1
      let s2 := { s1 with failureCount := fc, lastFailureTime := some now }
      let s3 :=
        if s1.state = .halfOpen then
          { s2 with state := .opened, successCount := 0 }
        else if s1.state = .closed ∧ b.failureThreshold ≤ fc then
          { s2 with state := .opened }
        else s2
      { newState := s3, invoked := true, rejectedOpen := false, raised := true }

/-- State after a sequence of consecutive failing calls at the given times. -/
def failRun (b : Breaker) (s : CBState) (ts : List ℚ) : CBState :=
  ts.foldl (fun st t => (call b st t .failure).newState) s

theorem failRun_closed_progress (b : Breaker) :
    ∀ (ts : List ℚ) (s : CBState), s.state = .closed →
      ∀ (hne : ts ≠ []), s.failureCount + ts.length = b.failureThreshold →
      (failRun b s ts).state = .opened ∧
      (failRun b s ts).lastFailureTime = some (ts.getLast hne) := by
  intro ts
  induction ts with
  | nil => intro s _ hne _; exact absurd rfl hne
  | cons t rest ih =>
    intro s hclosed _ hlen
    cases rest with
    | nil =>
      -- the final failure reaches the threshold and opens the circuit
      have hth : b.failureThreshold ≤ s.failureCount + 1 := by
        simpa using Nat.le_of_eq hlen.symm
      simp only [failRun, List.foldl_cons, List.foldl_nil, call, hclosed]
      simp [failRun, call, hclosed, hth, List.getLast]
    | cons t2 rest2 =>
      -- an intermediate failure stays CLOSED below the threshold
      have hlt : s.failureCount + 1 < b.failureThreshold := by
        simp only [List.length_cons] at hlen
        omega
      have hstep :
          (call b s t .failure).newState =
            { s with failureCount := s.failureCount + 1, lastFailureTime := some t } := by
        simp [call, hclosed, Nat.not_le.mpr hlt]
      have hs' :
          failRun b s (t :: t2 :: rest2) =
            failRun b { s with failureCount := s.failureCount + 1,
                               lastFailureTime := some t } (t2 :: rest2) := by
        simp [failRun, hstep]
      rw [hs']
      have hres := ih { s with failureCount := s.failureCount + 1, lastFailureTime := some t }
        (by simp [hclosed]) (by simp)
        (by simp only [List.length_cons] at hlen ⊢; omega)
      simpa [List.getLast] using hres

/-- In the OPEN state, a call attempted while the timeout has not yet
expired is rejected without invoking the wrapped callable, and leaves the
breaker state untouched. -/
theorem call_rejected_while_open (b : Breaker) (s : CBState) (now lf : ℚ) (o : Outcome)
    (hopen : s.state = .opened) (hlf : s.lastFailureTime = some lf)
    (hbefore : ¬ b.timeoutDuration < now - lf) :
    call b s now o = { newState := s, invoked := false, rejectedOpen := true, raised := false } := by
  have hcond : ¬ (lf ≠ 0 ∧ b.timeoutDuration < now - lf) := by
    intro h; exact hbefore h.2
  simp [call, hopen, hlf, hcond]

end CircuitBreaker

/-- C2: for every circuit breaker started in CLOSED state, after
`failure_threshold` consecutive failures of the wrapped callable the
breaker is OPEN, and a further call attempted before `timeout_duration`
has elapsed since the last failure is rejected with
`CircuitBreakerOpenError` without the wrapped callable being invoked. -/
theorem claim_C2_breaker_opens_and_rejects (b : CircuitBreaker.Breaker) (ts : List ℚ)
    (tlast now : ℚ) (o : CircuitBreaker.Outcome)
    (hpos : 0 < b.failureThreshold)
    (hlen : ts.length = b.failureThreshold)
    (hlast : ts.getLast? = some tlast)
    (hbefore : now - tlast < b.timeoutDuration) :
    let s := CircuitBreaker.failRun b CircuitBreaker.initState ts
    s.state = .opened ∧
    (CircuitBreaker.call b s now o).invoked = false ∧
    (CircuitBreaker.call b s now o).rejectedOpen = true ∧
    (CircuitBreaker.call b s now o).newState = s := by
  intro s
  have hne : ts ≠ [] := by
    intro h; rw [h] at hlen; simp at hlen; omega
  have hprog := CircuitBreaker.failRun_closed_progress b ts CircuitBreaker.initState rfl hne
    (by simpa [CircuitBreaker.initState] using hlen)
  have hlast' : ts.getLast hne = tlast := by
    have := List.getLast?_eq_getLast ts hne
    rw [this] at hlast
    exact Option.some_injective _ hlast
  have hopen : s.state = .opened := hprog.1
  have hlf : s.lastFailureTime = some tlast := by
    have := hprog.2
    rw [hlast'] at this
    exact this
  have hnot : ¬ b.timeoutDuration < now - tlast := by
    intro hcontra
    have : now - tlast < now - tlast := lt_trans hbefore hcontra
    exact lt_irrefl _ this
  have hcall := CircuitBreaker.call_rejected_while_open b s now tlast o hopen hlf hnot
  exact ⟨hopen, by rw [hcall], by rw [hcall], by rw [hcall]⟩

/-- Witness for C2 at a concrete breaker (threshold 2, timeout 30 s):
failures at times 0 and 1, rejected call at time 10. -/
theorem claim_C2_witness :
    let b : CircuitBreaker.Breaker :=
      { failureThreshold := 2, timeoutDuration := 30, successThreshold := 3 }
    let s := CircuitBreaker.failRun b CircuitBreaker.initState [0, 1]
    s.state = .opened ∧
    (CircuitBreaker.call b s 10 .success).invoked = false ∧
    (CircuitBreaker.call b s 10 .success).rejectedOpen = true ∧
    (CircuitBreaker.call b s 10 .success).newState = s :=
  claim_C2_breaker_opens_and_rejects
    { failureThreshold := 2, timeoutDuration := 30, successThreshold := 3 }
    [0, 1] 1 10 .success (by norm_num) (by simp) (by simp) (by norm_num)

/-! ## Hybrid retriever (`src/src/retrieve.py`)

Documents (`langchain.schema.Document`) carry their Python object
identity as an explicit `oid` field, because `_combine_results` keys its
score dictionary on `id(doc)`. The Pinecone store is modelled as a map
from namespace to the records upserted under it (the store provides
per-namespace isolation); the langchain `BM25Retriever` is an external
collaborator and is passed in as a search function over the retriever's
in-memory `document_cache`.
-/

namespace SrcRetrieve

structure PyDoc where
  oid : Nat
  content : List Char
  source : List Char
  nspace : List Char
deriving DecidableEq

/-- Stable insertion (descending) — earlier elements stay in front of
later elements with an equal key, as Python's stable `sorted` does. -/
def insertDesc (key : α → ℚ) (x : α) : List α → List α
  | [] => [x]
  | y :: ys => if key y ≤ key x then x :: y :: ys else y :: insertDesc key x ys

/-- Model of Python's `sorted(…, key=…, reverse=True)`: the unique stable
descending ordering by `key`. -/
def sortDescBy (key : α → ℚ) : List α → List α
  | [] => []
  | x :: xs => insertDesc key x (sortDescBy key xs)

/-- One `scores[doc_id] = scores.get(doc_id, 0) + delta` update together
with the `doc_map` update (`doc_map[doc_id] = doc` in the vector pass,
`if doc_id not in doc_map` in the BM25 pass). Python dicts preserve
insertion order, as the association list does. -/
def upsertScore (oid : Nat) (doc : PyDoc) (delta : ℚ) (overwriteDoc : Bool) :
    List (Nat × PyDoc × ℚ) → List (Nat × PyDoc × ℚ)
  | [] => [(oid, doc, delta)]
  | e :: rest =>
    if e.1 = oid then (e.1, (if overwriteDoc then doc else e.2.1), e.2.2 + delta) :: rest
    else e :: upsertScore oid doc delta overwriteDoc rest

/-- One `for rank, doc in enumerate(docs, 1)` scoring loop of
`_combine_results`, contributing `w / (k + rank)` with `k = 60`. -/
def scorePass (w : ℚ) (overwriteDoc : Bool) :
    List (Nat × PyDoc × ℚ) → List PyDoc → Nat → List (Nat × PyDoc × ℚ)
  | entries, [], _ => entries
  | entries, d :: ds, rank =>
    scorePass w overwriteDoc
      (upsertScore d.oid d (w / (60 + (rank : ℚ))) overwriteDoc entries) ds (rank + 1)

/-- `HybridRetriever._combine_results`: weighted reciprocal rank fusion
keyed on `id(doc)`, sorted descending by score, truncated to
`max_results`; each surviving document is returned with its
`metadata["rrf_score"]`. -/
def combineResults (vw bw : ℚ) (vectorDocs bm25Docs : List PyDoc) (maxResults : Nat) :
    List (PyDoc × ℚ) :=
  let entries := scorePass bw false (scorePass vw true [] vectorDocs 1) bm25Docs 1
  let sortedEntries := sortDescBy (fun e => e.2.2) entries
  (sortedEntries.take maxResults).map (fun e => (e.2.1, e.2.2))

structure RetState where
  documentCache : List PyDoc
  bm25Active : Bool
  store : List Char → List PyDoc

def initRetState : RetState :=
  { documentCache := [], bm25Active := false, store := fun _ => [] }

/-- `HybridRetriever.index_documents`: extends the global (namespace-blind)
`document_cache`, rebuilds the BM25 retriever over it, and upserts the
embedded documents to the Pinecone namespace. -/
def index_documents (s : RetState) (docs : List PyDoc) (nspace : List Char) : RetState :=
  if docs.isEmpty then s
  else
    { documentCache := s.documentCache ++ docs,
      bm25Active := true,
      store := fun n => if n = nspace then s.store n ++ docs else s.store n }

/-- Step 2 of `HybridRetriever.retrieve`:
`if self.bm25_retriever and self.document_cache:` — the BM25 search runs
over the whole shared cache, with no namespace filter. -/
def bm25Branch (bm25Search : List Char → List PyDoc → List PyDoc)
    (s : RetState) (query : List Char) : List PyDoc :=
  if s.bm25Active && !s.documentCache.isEmpty then bm25Search query s.documentCache else []

/-- `HybridRetriever.retrieve` (no empty-query validation is performed):
vector search in the requested namespace, BM25 over the global cache,
RRF fusion, then either the Cohere re-rank (external, a function of the
query, the fused list and `top_k`) or plain truncation. -/
def retrieve (bm25Search : List Char → List PyDoc → List PyDoc)
    (rerankFn : List Char → List (PyDoc × ℚ) → Nat → List (PyDoc × ℚ))
    (vw bw : ℚ) (s : RetState) (query nspace : List Char)
    (topK initialK : Nat) (useRerank : Bool) : List (PyDoc × ℚ) :=
  let vectorDocuments := (s.store nspace).take initialK
  let bm25Documents := bm25Branch bm25Search s query
  let combined := combineResults vw bw vectorDocuments bm25Documents initialK
  if useRerank && !combined.isEmpty then rerankFn query combined topK
  else combined.take topK

/-- `HybridRetriever.clear_index`: the Pinecone deletion is scoped to the
given namespace, but the in-memory BM25 cache and retriever are dropped
wholesale. `deleteOk` is the outcome of the external
`delete_namespace` call; on failure nothing is cleared and `False` is
returned. -/
def clear_index (s : RetState) (nspace : List Char) (deleteOk : Bool) : RetState × Bool :=
  if deleteOk then
    ({ documentCache := [], bm25Active := false,
       store := fun n => if n = nspace then [] else s.store n }, true)
  else (s, false)

/-! ### Sorting lemmas -/

theorem insertDesc_perm (key : α → ℚ) (x : α) (l : List α) :
    List.Perm (insertDesc key x l) (x :: l) := by
  induction l with
  | nil => simp [insertDesc]
  | cons y ys ih =>
    unfold insertDesc
    by_cases h : key y ≤ key x
    · simp [h]
    · simp only [if_neg h]
      exact ((ih.cons y).trans (List.Perm.swap x y ys))

theorem sortDescBy_perm (key : α → ℚ) (l : List α) :
    List.Perm (sortDescBy key l) l := by
  induction l with
  | nil => simp [sortDescBy]
  | cons x xs ih =>
    exact (insertDesc_perm key x (sortDescBy key xs)).trans (ih.cons x)

theorem insertDesc_pairwise (key : α → ℚ) (x : α) (l : List α)
    (h : List.Pairwise (fun a b => key b ≤ key a) l) :
    List.Pairwise (fun a b => key b ≤ key a) (insertDesc key x l) := by
  induction l with
  | nil => simp [insertDesc]
  | cons y ys ih =>
    unfold insertDesc
    by_cases hc : key y ≤ key x
    · rw [if_pos hc]
      refine List.Pairwise.cons ?_ h
      intro b hb
      rcases List.mem_cons.mp hb with hb | hb
      · exact hb ▸ hc
      · exact le_trans ((List.pairwise_cons.mp h).1 b hb) hc
    · rw [if_neg hc]
      have hys := (List.pairwise_cons.mp h).2
      refine List.Pairwise.cons ?_ (ih hys)
      intro b hb
      have hb' := (insertDesc_perm key x ys).mem_iff.mp hb
      rcases List.mem_cons.mp hb' with hb' | hb'
      · exact hb' ▸ le_of_not_le hc
      · exact (List.pairwise_cons.mp h).1 b hb'

theorem sortDescBy_pairwise (key : α → ℚ) (l : List α) :
    List.Pairwise (fun a b => key b ≤ key a) (sortDescBy key l) := by
  induction l with
  | nil => simp [sortDescBy]
  | cons x xs ih => exact insertDesc_pairwise key x _ ih

/-! ### Characterisation of the fusion passes -/

/-- 1-based ranks, as produced by `enumerate(docs, 1)`. -/
def withRanks : List PyDoc → Nat → List (PyDoc × Nat)
  | [], _ => []
  | d :: ds, r => (d, r) :: withRanks ds (r + 1)

def rankedEntries (w : ℚ) (ds : List PyDoc) (r : Nat) : List (Nat × PyDoc × ℚ) :=
  (withRanks ds r).map (fun p => (p.1.oid, p.1, w / (60 + (p.2 : ℚ))))

theorem withRanks_map_fst (ds : List PyDoc) (r : Nat) :
    (withRanks ds r).map Prod.fst = ds := by
  induction ds generalizing r with
  | nil => rfl
  | cons d t ih => simp [withRanks, ih]

theorem withRanks_length (ds : List PyDoc) (r : Nat) :
    (withRanks ds r).length = ds.length := by
  induction ds generalizing r with
  | nil => rfl
  | cons d t ih => simp [withRanks, ih]

theorem rankedEntries_map_fst (w : ℚ) (ds : List PyDoc) (r : Nat) :
    (rankedEntries w ds r).map Prod.fst = ds.map PyDoc.oid := by
  induction ds generalizing r with
  | nil => rfl
  | cons d t ih => simp [rankedEntries, withRanks, List.map_cons] at ih ⊢; exact ih (r + 1)

theorem upsertScore_absent (oid : Nat) (doc : PyDoc) (delta : ℚ) (ow : Bool)
    (entries : List (Nat × PyDoc × ℚ)) (h : oid ∉ entries.map Prod.fst) :
    upsertScore oid doc delta ow entries = entries ++ [(oid, doc, delta)] := by
  induction entries with
  | nil => rfl
  | cons e rest ih =>
    simp only [List.map_cons, List.mem_cons, not_or] at h
    unfold upsertScore
    rw [if_neg (by exact fun hc => h.1 hc.symm)]
    simp [ih h.2]

theorem scorePass_fresh (w : ℚ) (ow : Bool) :
    ∀ (ds : List PyDoc) (entries : List (Nat × PyDoc × ℚ)) (r : Nat),
      (∀ d ∈ ds, d.oid ∉ entries.map Prod.fst) →
      (ds.map PyDoc.oid).Nodup →
      scorePass w ow entries ds r = entries ++ rankedEntries w ds r := by
  intro ds
  induction ds with
  | nil => intro entries r _ _; simp [scorePass, rankedEntries, withRanks]
  | cons d t ih =>
    intro entries r hfresh hnodup
    have hd : d.oid ∉ entries.map Prod.fst := hfresh d (List.mem_cons_self d t)
    unfold scorePass
    rw [upsertScore_absent d.oid d (w / (60 + (r : ℚ))) ow entries hd]
    have hfresh' : ∀ x ∈ t, x.oid ∉ (entries ++ [(d.oid, d, w / (60 + (r : ℚ)))]).map Prod.fst := by
      intro x hx
      simp only [List.map_append, List.mem_append, List.map_cons, List.map_nil, List.mem_singleton,
        not_or]
      refine ⟨hfresh x (List.mem_cons_of_mem d hx), ?_⟩
      intro hc
      have : d.oid ∈ t.map PyDoc.oid := by
        rw [← hc]; exact List.mem_map_of_mem PyDoc.oid hx
      rw [List.map_cons] at hnodup
      exact (List.nodup_cons.mp hnodup).1 (by simpa using this)
    have hnodup' : (t.map PyDoc.oid).Nodup := by
      rw [List.map_cons] at hnodup
      exact (List.nodup_cons.mp hnodup).2
    rw [ih (entries ++ [(d.oid, d, w / (60 + (r : ℚ)))]) (r + 1) hfresh' hnodup']
    simp [rankedEntries, withRanks]

/-- Every document in a fused entry comes from one of the two input pools
(no hypotheses needed: the score dictionary only ever stores input
documents). -/
theorem upsertScore_docs (oid : Nat) (doc : PyDoc) (delta : ℚ) (ow : Bool)
    (entries : List (Nat × PyDoc × ℚ)) (pool : List PyDoc)
    (hentries : ∀ en ∈ entries, en.2.1 ∈ pool) (hdoc : doc ∈ pool) :
    ∀ en ∈ upsertScore oid doc delta ow entries, en.2.1 ∈ pool := by
  induction entries with
  | nil => intro en hen; simp [upsertScore] at hen; simp [hen, hdoc]
  | cons e rest ih =>
    intro en hen
    unfold upsertScore at hen
    by_cases hc : e.1 = oid
    · rw [if_pos hc] at hen
      rcases List.mem_cons.mp hen with hen | hen
      · subst hen
        by_cases how : ow = true
        · simpa [how] using hdoc
        · have : ow = false := by simpa using how
          simpa [this] using hentries e (List.mem_cons_self e rest)
      · exact hentries en (List.mem_cons_of_mem e hen)
    · rw [if_neg hc] at hen
      rcases List.mem_cons.mp hen with hen | hen
      · exact hen ▸ hentries e (List.mem_cons_self e rest)
      · exact ih (fun x hx => hentries x (List.mem_cons_of_mem e hx)) en hen

theorem scorePass_docs (w : ℚ) (ow : Bool) :
    ∀ (ds : List PyDoc) (entries : List (Nat × PyDoc × ℚ)) (r : Nat) (pool : List PyDoc),
      (∀ en ∈ entries, en.2.1 ∈ pool) → (∀ d ∈ ds, d ∈ pool) →
      ∀ en ∈ scorePass w ow entries ds r, en.2.1 ∈ pool := by
  intro ds
  induction ds with
  | nil => intro entries r pool hentries _ en hen; exact hentries en hen
  | cons d t ih =>
    intro entries r pool hentries hds en hen
    unfold scorePass at hen
    exact ih _ (r + 1) pool
      (upsertScore_docs d.oid d _ ow entries pool hentries (hds d (List.mem_cons_self d t)))
      (fun x hx => hds x (List.mem_cons_of_mem d hx)) en hen

theorem combineResults_doc_mem (vw bw : ℚ) (v b : List PyDoc) (m : Nat) :
    ∀ e ∈ combineResults vw bw v b m, e.1 ∈ v ∨ e.1 ∈ b := by
  intro e he
  unfold combineResults at he
  obtain ⟨en, hen, hmap⟩ := List.mem_map.mp he
  have hen' : en ∈ sortDescBy (fun e => e.2.2)
      (scorePass bw false (scorePass vw true [] v 1) b 1) :=
    List.mem_of_mem_take hen
  have hen'' := (sortDescBy_perm _ _).mem_iff.mp hen'
  have hpool : en.2.1 ∈ v ++ b := by
    refine scorePass_docs bw false b (scorePass vw true [] v 1) 1 (v ++ b) ?_ ?_ en hen''
    · intro x hx
      refine scorePass_docs vw true v [] 1 (v ++ b) (by simp) ?_ x hx
      intro d hd; exact List.mem_append_left b hd
    · intro d hd; exact List.mem_append_right v hd
  rw [← hmap]
  simpa using List.mem_append.mp hpool

end SrcRetrieve

namespace SrcRetrieve

/-- Two distinct Python objects with identical text body and source
(hence identical content hash), one per result list. -/
def ceDocV : PyDoc := { oid := 1, content := "x".data, source := "s".data, nspace := "default".data }

def ceDocB : PyDoc := { oid := 2, content := "x".data, source := "s".data, nspace := "default".data }

/-- C3 counterexample: fusion does NOT deduplicate by content hash.
A vector result and a BM25 result with identical body and source are two
distinct objects, so both survive with single-term scores — the fused
size is 2 although `|vector| + |lexical| − overlap = 1`. -/
theorem claim_C3_counterexample :
    (combineResults (3/5) (2/5) [ceDocV] [ceDocB] 5).length = 2 ∧
    ceDocV.content = ceDocB.content ∧ ceDocV.source = ceDocB.source ∧
    (combineResults (3/5) (2/5) [ceDocV] [ceDocB] 5).map Prod.fst = [ceDocV, ceDocB] := by
  refine ⟨?_, rfl, rfl, ?_⟩ <;>
    norm_num [combineResults, scorePass, upsertScore, sortDescBy, insertDesc, ceDocV, ceDocB]

/-- C3 (amended): `_combine_results` deduplicates by Python object
identity (`id(doc)`), not by content hash. When the two lists share no
object — as in `retrieve`, where vector documents are freshly
constructed — every fused document appears in exactly one list and its
`rrf_score` is the single term `w_v/(60+r_v)` resp. `w_k/(60+r_k)` for
its 1-based rank there; the fused list is sorted non-increasingly by
`rrf_score` and has size `min max_results (|vector| + |lexical|)`. -/
theorem claim_C3_rrf_fusion (vw bw : ℚ) (vdocs bdocs : List PyDoc) (m : Nat)
    (hv : (vdocs.map PyDoc.oid).Nodup)
    (hb : (bdocs.map PyDoc.oid).Nodup)
    (hdisj : ∀ d ∈ bdocs, d.oid ∉ vdocs.map PyDoc.oid) :
    (∀ e ∈ combineResults vw bw vdocs bdocs m,
        (∃ r, (e.1, r) ∈ withRanks vdocs 1 ∧ e.2 = vw / (60 + (r : ℚ))) ∨
        (∃ r, (e.1, r) ∈ withRanks bdocs 1 ∧ e.2 = bw / (60 + (r : ℚ)))) ∧
    List.Pairwise (fun a b => b.2 ≤ a.2) (combineResults vw bw vdocs bdocs m) ∧
    (combineResults vw bw vdocs bdocs m).length = min m (vdocs.length + bdocs.length) := by
  have hpass1 : scorePass vw true [] vdocs 1 = rankedEntries vw vdocs 1 := by
    simpa using scorePass_fresh vw true vdocs [] 1 (by simp) hv
  have hfresh2 : ∀ d ∈ bdocs,
      d.oid ∉ (rankedEntries vw vdocs 1).map Prod.fst := by
    intro d hd
    rw [rankedEntries_map_fst]
    exact hdisj d hd
  have hentries : scorePass bw false (scorePass vw true [] vdocs 1) bdocs 1 =
      rankedEntries vw vdocs 1 ++ rankedEntries bw bdocs 1 := by
    rw [hpass1]
    exact scorePass_fresh bw false bdocs (rankedEntries vw vdocs 1) 1 hfresh2 hb
  have hlenE : (scorePass bw false (scorePass vw true [] vdocs 1) bdocs 1).length =
      vdocs.length + bdocs.length := by
    rw [hentries]
    simp [rankedEntries, withRanks_length]
  refine ⟨?_, ?_, ?_⟩
  · intro e he
    unfold combineResults at he
    obtain ⟨en, hen, hmap⟩ := List.mem_map.mp he
    have hen' := List.mem_of_mem_take hen
    have hen'' := (sortDescBy_perm (fun e : Nat × PyDoc × ℚ => e.2.2)
      (scorePass bw false (scorePass vw true [] vdocs 1) bdocs 1)).mem_iff.mp hen'
    rw [hentries] at hen''
    rcases List.mem_append.mp hen'' with hmem | hmem
    · left
      obtain ⟨p, hp, hpe⟩ := List.mem_map.mp hmem
      refine ⟨p.2, ?_, ?_⟩
      · have : en.2.1 = p.1 := by rw [← hpe]
        rw [← hmap]
        simpa [this] using hp
      · rw [← hmap, ← hpe]
    · right
      obtain ⟨p, hp, hpe⟩ := List.mem_map.mp hmem
      refine ⟨p.2, ?_, ?_⟩
      · have : en.2.1 = p.1 := by rw [← hpe]
        rw [← hmap]
        simpa [this] using hp
      · rw [← hmap, ← hpe]
  · unfold combineResults
    rw [List.pairwise_map]
    exact ((sortDescBy_pairwise (fun e : Nat × PyDoc × ℚ => e.2.2) _).sublist
      (List.take_sublist _ _))
  · unfold combineResults
    have hsl := (sortDescBy_perm (fun e : Nat × PyDoc × ℚ => e.2.2)
      (scorePass bw false (scorePass vw true [] vdocs 1) bdocs 1)).length_eq
    rw [List.length_map, List.length_take, hsl, hlenE]

def wDocV : PyDoc := { oid := 1, content := "camry".data, source := "inv".data, nspace := "default".data }

def wDocB : PyDoc := { oid := 2, content := "accord".data, source := "inv".data, nspace := "default".data }

/-- Witness for C3 at concrete one-element lists with distinct object ids. -/
theorem claim_C3_witness :
    (combineResults (3/5) (2/5) [wDocV] [wDocB] 5).length = min 5 2 ∧
    List.Pairwise (fun a b => b.2 ≤ a.2) (combineResults (3/5) (2/5) [wDocV] [wDocB] 5) :=
  ⟨(claim_C3_rrf_fusion (3/5) (2/5) [wDocV] [wDocB] 5 (by decide) (by decide)
      (by decide)).2.2,
   (claim_C3_rrf_fusion (3/5) (2/5) [wDocV] [wDocB] 5 (by decide) (by decide)
      (by decide)).2.1⟩

def ceDocA : PyDoc := { oid := 1, content := "policy a".data, source := "docs".data, nspace := "a".data }

/-- C1 counterexample: a document indexed under namespace `"a"` is
returned by a retrieval call for namespace `"b"` — the BM25 branch serves
it from the shared, namespace-blind `document_cache` (the vector store
itself holds nothing under `"b"`). -/
theorem claim_C1_counterexample :
    (retrieve (fun _ corpus => corpus) (fun _ ds _ => ds) (3/5) (2/5)
        (index_documents initRetState [ceDocA] "a".data)
        "policy".data "b".data 5 20 false).map (fun e => e.1.nspace) = ["a".data] := by
  decide

/-- C1 (amended): every document returned by `HybridRetriever.retrieve`
comes either from the vector store's requested namespace or from the
global BM25 `document_cache`; the vector branch is namespace-scoped
(assuming the store isolates namespaces), but the BM25 branch is not
filtered by namespace, so namespace isolation holds only when the shared
cache contains only documents of the requested namespace. -/
theorem claim_C1_namespace_scoping
    (bm25Search : List Char → List PyDoc → List PyDoc)
    (rerankFn : List Char → List (PyDoc × ℚ) → Nat → List (PyDoc × ℚ))
    (vw bw : ℚ) (s : RetState) (query nspaceReq : List Char) (topK initialK : Nat) (ur : Bool)
    (hbm : ∀ q corpus, ∀ d ∈ bm25Search q corpus, d ∈ corpus)
    (hrr : ∀ q ds k, ∀ e ∈ rerankFn q ds k, e ∈ ds) :
    (∀ e ∈ retrieve bm25Search rerankFn vw bw s query nspaceReq topK initialK ur,
        e.1 ∈ s.store nspaceReq ∨ e.1 ∈ s.documentCache) ∧
    ((∀ n, ∀ d ∈ s.store n, d.nspace = n) →
      (∀ d ∈ s.documentCache, d.nspace = nspaceReq) →
      ∀ e ∈ retrieve bm25Search rerankFn vw bw s query nspaceReq topK initialK ur,
        e.1.nspace = nspaceReq) := by
  have part1 : ∀ e ∈ retrieve bm25Search rerankFn vw bw s query nspaceReq topK initialK ur,
      e.1 ∈ s.store nspaceReq ∨ e.1 ∈ s.documentCache := by
    intro e he
    have hcomb : e ∈ combineResults vw bw ((s.store nspaceReq).take initialK)
        (bm25Branch bm25Search s query) initialK := by
      simp only [retrieve] at he
      split at he
      · exact hrr _ _ _ e he
      · exact List.mem_of_mem_take he
    rcases combineResults_doc_mem vw bw _ _ initialK e hcomb with h | h
    · exact Or.inl (List.mem_of_mem_take h)
    · unfold bm25Branch at h
      by_cases hb : (s.bm25Active && !s.documentCache.isEmpty) = true
      · rw [if_pos hb] at h
        exact Or.inr (hbm query s.documentCache e.1 h)
      · rw [if_neg hb] at h
        simp at h
  refine ⟨part1, fun hwf hpure e he => ?_⟩
  rcases part1 e he with h | h
  · exact hwf nspaceReq e.1 h
  · exact hpure e.1 h

def wDocN : PyDoc := { oid := 5, content := "policy".data, source := "docs".data, nspace := "a".data }

/-- Witness for C1 at a concrete single-namespace state: with the cache
holding only namespace-"a" documents, a request for "a" returns only
namespace-"a" documents. -/
theorem claim_C1_witness :
    (retrieve (fun _ corpus => corpus) (fun _ ds _ => ds) (3/5) (2/5)
        { documentCache := [wDocN], bm25Active := true,
          store := fun n => if n = "a".data then [wDocN] else [] }
        "q".data "a".data 5 20 false).all (fun e => e.1.nspace == "a".data) = true := by
  apply List.all_eq_true.mpr
  intro e he
  have h := (claim_C1_namespace_scoping (fun _ corpus => corpus) (fun _ ds _ => ds) (3/5) (2/5)
      { documentCache := [wDocN], bm25Active := true,
        store := fun n => if n = "a".data then [wDocN] else [] }
      "q".data "a".data 5 20 false (fun _ _ _ hd => hd) (fun _ _ _ _ he' => he')).2
      ?_ ?_ e he
  · exact beq_iff_eq.mpr h
  · intro n d hd
    have hd' : d ∈ (if n = "a".data then [wDocN] else []) := hd
    by_cases hn : n = "a".data
    · rw [if_pos hn] at hd'
      have : d = wDocN := by simpa using hd'
      rw [this, hn]
      rfl
    · rw [if_neg hn] at hd'
      cases hd'
  · intro d hd
    have : d = wDocN := by simpa using hd
    rw [this]
    rfl

def ceDocQ : PyDoc := { oid := 3, content := "camry le".data, source := "inv".data, nspace := "default".data }

/-- C4 counterexample: `retrieve` performs no empty-query validation —
for the empty query it still issues the vector search and returns its
matches, here a non-empty result. -/
theorem claim_C4_counterexample :
    (retrieve (fun _ corpus => corpus) (fun _ ds _ => ds) (3/5) (2/5)
        { documentCache := [], bm25Active := false,
          store := fun n => if n = "default".data then [ceDocQ] else [] }
        "".data "default".data 5 20 false).isEmpty = false := by
  decide

/-- C4 (amended): the `src/src` `HybridRetriever.retrieve` does not
special-case the empty query: it issues both search branches as usual
and returns `[]` exactly when both branches produce nothing (the
empty-query short-circuit exists only in the `v3-main` retriever). -/
theorem claim_C4_empty_query (bm25Search : List Char → List PyDoc → List PyDoc)
    (rerankFn : List Char → List (PyDoc × ℚ) → Nat → List (PyDoc × ℚ))
    (vw bw : ℚ) (s : RetState) (query nspaceReq : List Char)
    (topK initialK : Nat) (ur : Bool)
    (hstore : s.store nspaceReq = []) (hbm : s.bm25Active = false) :
    retrieve bm25Search rerankFn vw bw s query nspaceReq topK initialK ur = [] := by
  simp [retrieve, bm25Branch, hstore, hbm, combineResults, scorePass, sortDescBy]

/-- Witness for C4 (amended) with an empty store, at the empty query. -/
theorem claim_C4_witness :
    retrieve (fun _ corpus => corpus) (fun _ ds _ => ds) (3/5) (2/5) initRetState
      "".data "default".data 5 20 false = [] :=
  claim_C4_empty_query (fun _ corpus => corpus) (fun _ ds _ => ds) (3/5) (2/5)
    initRetState "".data "default".data 5 20 false rfl rfl

/-- C10: `clear_index(ns)` empties the whole in-memory BM25 document
cache and discards the BM25 retriever — for every namespace, not just
`ns` — while the vector-store deletion is scoped to `ns`; afterwards the
lexical branch returns no results for any query. -/
theorem claim_C10_clear_index (s : RetState) (nspace : List Char) :
    (clear_index s nspace true).2 = true ∧
    (clear_index s nspace true).1.documentCache = [] ∧
    (clear_index s nspace true).1.bm25Active = false ∧
    (clear_index s nspace true).1.store nspace = [] ∧
    (∀ n, n ≠ nspace → (clear_index s nspace true).1.store n = s.store n) ∧
    (∀ bm25Search query, bm25Branch bm25Search (clear_index s nspace true).1 query = []) := by
  refine ⟨rfl, rfl, rfl, by simp [clear_index], ?_, ?_⟩
  · intro n hn
    simp [clear_index, hn]
  · intro bm25Search query
    simp [clear_index, bm25Branch]

/-- Witness for C10: clearing namespace "a" wipes the BM25 cache entirely
but leaves namespace "b" vector records intact. -/
theorem claim_C10_witness :
    let s : RetState :=
      { documentCache := [ceDocA, wDocN], bm25Active := true,
        store := fun n => if n = "a".data then [ceDocA] else if n = "b".data then [wDocN] else [] }
    (clear_index s "a".data true).2 = true ∧
    (clear_index s "a".data true).1.documentCache = [] ∧
    (clear_index s "a".data true).1.bm25Active = false ∧
    (clear_index s "a".data true).1.store "a".data = [] ∧
    (clear_index s "a".data true).1.store "b".data = [wDocN] ∧
    bm25Branch (fun _ corpus => corpus) (clear_index s "a".data true).1 "q".data = [] := by
  intro s
  have h := claim_C10_clear_index s "a".data
  refine ⟨h.1, h.2.1, h.2.2.1, h.2.2.2.1, ?_, h.2.2.2.2.2 (fun _ corpus => corpus) "q".data⟩
  have hb := h.2.2.2.2.1 "b".data (by decide)
  rw [hb]
  decide

end SrcRetrieve

/-! ### Digest shape lemmas -/

namespace SHA256

theorem compressBlock_length (h b : List Nat) : (compressBlock h b).length = 8 := rfl

theorem foldl_compressBlock_length (bs : List (List Nat)) (h : List Nat) (hh : h.length = 8) :
    (bs.foldl compressBlock h).length = 8 := by
  induction bs generalizing h with
  | nil => simpa using hh
  | cons b t ih => exact ih _ (compressBlock_length h b)

theorem flatMap_wordBytes_length (l : List Nat) :
    (l.flatMap wordBytes).length = 4 * l.length := by
  induction l with
  | nil => rfl
  | cons a t ih => simp [List.flatMap_cons, wordBytes, ih]; ring

theorem sha256Bytes_length (msg : List Nat) : (sha256Bytes msg).length = 32 := by
  unfold sha256Bytes
  rw [flatMap_wordBytes_length, foldl_compressBlock_length _ _ (by rfl)]

theorem flatMap_byteHex_length (l : List Nat) :
    (l.flatMap byteHex).length = 2 * l.length := by
  induction l with
  | nil => rfl
  | cons a t ih => simp [List.flatMap_cons, byteHex, ih]; ring

theorem sha256hexChars_length (s : List Char) : (sha256hexChars s).length = 64 := by
  unfold sha256hexChars
  rw [flatMap_byteHex_length, sha256Bytes_length]

theorem hexDigit_mem (n : Nat) : hexDigit n ∈ "0123456789abcdef".data := by
  unfold hexDigit
  rw [List.getD_eq_getElem?_getD]
  cases h : "0123456789abcdef".data[n]? with
  | none =>
    simp only [h, Option.getD_none]
    decide
  | some c =>
    simp only [h, Option.getD_some]
    exact List.getElem?_mem h

theorem sha256hexChars_hex (s : List Char) :
    ∀ c ∈ sha256hexChars s, c ∈ "0123456789abcdef".data := by
  intro c hc
  unfold sha256hexChars at hc
  obtain ⟨b, _, hcb⟩ := List.mem_flatMap.mp hc
  unfold byteHex at hcb
  rcases List.mem_cons.mp hcb with h | h
  · exact h ▸ hexDigit_mem (b / 16)
  · have : c = hexDigit (b % 16) := by simpa using h
    exact this ▸ hexDigit_mem (b % 16)

end SHA256

/-! ## Chunk identifiers (`src/src/embed.py`, `EmbeddingManager._generate_id`)

`content = f"{document.page_content}{document.metadata.get('source', '')}"`
and `hashlib.sha256(content.encode()).hexdigest()[:32]`.
-/

namespace SrcEmbed

structure Doc where
  pageContent : List Char
  /-- `metadata.get("source", "")` — absent source is the empty string. -/
  source : List Char

/-- `EmbeddingManager._generate_id`. -/
def generateId (d : Doc) : List Char :=
  (SHA256.sha256hexChars (d.pageContent ++ d.source)).take 32

end SrcEmbed

/-- C9: chunks with equal text body and equal source get equal generated
identifiers, and the identifier is a deterministic 32-hex-character
digest of the content-plus-source hash. -/
theorem claim_C9_stable_ids (d1 d2 : SrcEmbed.Doc)
    (htext : d1.pageContent = d2.pageContent) (hsrc : d1.source = d2.source) :
    SrcEmbed.generateId d1 = SrcEmbed.generateId d2 ∧
    (SrcEmbed.generateId d1).length = 32 ∧
    ∀ c ∈ SrcEmbed.generateId d1, c ∈ "0123456789abcdef".data := by
  refine ⟨?_, ?_, ?_⟩
  · unfold SrcEmbed.generateId
    rw [htext, hsrc]
  · unfold SrcEmbed.generateId
    rw [List.length_take, SHA256.sha256hexChars_length]
    decide
  · intro c hc
    exact SHA256.sha256hexChars_hex _ c (List.mem_of_mem_take hc)

namespace SrcEmbed

def wDoc1 : Doc := { pageContent := "2024 Toyota Camry LE".data, source := "inventory.txt".data }

def wDoc2 : Doc := { pageContent := "2024 Toyota Camry LE".data, source := "inventory.txt".data }

end SrcEmbed

/-- Witness for C9: two documents with equal body and source have the same
32-character id. -/
theorem claim_C9_witness :
    SrcEmbed.generateId SrcEmbed.wDoc1 = SrcEmbed.generateId SrcEmbed.wDoc2 ∧
    (SrcEmbed.generateId SrcEmbed.wDoc1).length = 32 :=
  ⟨(claim_C9_stable_ids SrcEmbed.wDoc1 SrcEmbed.wDoc2 rfl rfl).1,
   (claim_C9_stable_ids SrcEmbed.wDoc1 SrcEmbed.wDoc2 rfl rfl).2.1⟩

/-! ## Embedding cache (`src/v3-main/src/embed.py`)

`EmbeddingManager.embed_single` with its Redis content-addressed cache.
The Voyage client is a deterministic oracle `api` (all three retry
attempts see the same outcome; `none` means every attempt fails); the
Redis round trip (`json.dumps` / `json.loads`) preserves the stored
vector, so the cache is a key-value list. Failure results carry the
mutated statistics alongside the `EmbeddingError` message.
-/

namespace V3Embed

structure EmbedState where
  /-- whether `initialize_cache` connected to Redis -/
  redisOn : Bool
  cache : List (List Char × List ℚ)
  cacheHits : Nat
  cacheMisses : Nat
  apiCalls : Nat
  apiErrors : Nat
  generated : Nat
deriving DecidableEq

/-- `_generate_cache_key(text, model)`:
`"embedding:v1:" + sha256(f"{model}:{text}")[:32]`. -/
def cacheKey (text model : List Char) : List Char :=
  "embedding:v1:".data ++ (SHA256.sha256hexChars (model ++ ":".data ++ text)).take 32

/-- `_get_cached_embedding`: without Redis, return `None` untouched; with
Redis, a present key is a hit (the stored JSON string is truthy), an
absent key a miss. -/
def getCached (s : EmbedState) (key : List Char) : Option (List ℚ) × EmbedState :=
  if s.redisOn then
    match List.lookup key s.cache with
    | some v => (some v, { s with cacheHits := s.cacheHits + 1 })
    | none => (none, { s with cacheMisses := s.cacheMisses + 1 })
  else (none, s)

/-- Statistics after three failed attempts (each attempt bumps
`total_api_calls` before calling out and `total_api_errors` on failure). -/
def bump3 (s : EmbedState) : EmbedState :=
  { s with apiCalls := s.apiCalls + 3, apiErrors := s.apiErrors + 3 }

/-- The retry loop of `embed_single` after a cache miss: call the model,
validate the response, store it in the cache (`_cache_embedding` is a
no-op without Redis), return it. -/
def apiFetch (api : List Char → Option (List ℚ)) (t key : List Char) (s1 : EmbedState) :
    Except (List Char × EmbedState) (List ℚ × EmbedState) :=
  match api t with
  | none => .error ("Failed to generate embedding after 3 attempts".data, bump3 s1)
  | some emb =>
    if emb.isEmpty then .error ("Empty response from Voyage AI API".data, bump3 s1)
    else
      .ok (emb,
        { s1 with
          apiCalls := s1.apiCalls + 1
          generated := s1.generated + 1
          cache := if s1.redisOn then (key, emb) :: s1.cache else s1.cache })

/-- `EmbeddingManager.embed_single`. -/
def embed_single (api : List Char → Option (List ℚ)) (s : EmbedState)
    (text model : List Char) : Except (List Char × EmbedState) (List ℚ × EmbedState) :=
  if (pyStrip text).isEmpty then
    .error ("Cannot embed empty or whitespace-only text".data, s)
  else if 32000 < (pyStrip text).length then
    .error ("Text too long".data, s)
  else
    let t := pyStrip text
    let key := cacheKey t model
    let r := getCached s key
    match r.1 with
    | some v =>
      -- `if cached_embedding:` — an empty decoded list is falsy and falls
      -- through to the model call
      if v.isEmpty then apiFetch api t key r.2 else .ok (v, r.2)
    | none => apiFetch api t key r.2

theorem apiFetch_ok (api : List Char → Option (List ℚ)) (t key : List Char)
    (s1 : EmbedState) (v : List ℚ) (s2 : EmbedState)
    (h : apiFetch api t key s1 = .ok (v, s2)) :
    v.isEmpty = false ∧ s2.redisOn = s1.redisOn ∧ s2.cacheHits = s1.cacheHits ∧
    (s1.redisOn = true → List.lookup key s2.cache = some v) := by
  unfold apiFetch at h
  cases hapi : api t with
  | none => rw [hapi] at h; exact absurd h (by simp)
  | some emb =>
    rw [hapi] at h
    simp only [] at h
    by_cases hemp : emb.isEmpty = true
    · rw [if_pos hemp] at h; exact absurd h (by simp)
    · rw [if_neg hemp] at h
      have hv : emb = v := by
        have := congrArg (fun x => match x with
          | Except.ok (p : List ℚ × EmbedState) => p.1
          | Except.error _ => []) h
        simpa using this
      have hs2 : s2 =
          { s1 with
            apiCalls := s1.apiCalls + 1
            generated := s1.generated + 1
            cache := if s1.redisOn then (key, emb) :: s1.cache else s1.cache } := by
        have := congrArg (fun x => match x with
          | Except.ok (p : List ℚ × EmbedState) => p.2
          | Except.error _ => s2) h
        simpa using this.symm
      subst hv
      refine ⟨by simpa using hemp, by rw [hs2], by rw [hs2], ?_⟩
      intro hron
      rw [hs2]
      simp [hron, List.lookup]

/-- C5: a repeated `embed_single` with unchanged text and model returns
the same vector; the second invocation is served from the
SHA-256-content-addressed cache, records exactly one additional cache
hit, and leaves the API-call counter untouched (no second remote model
call). -/
theorem claim_C5_embedding_cache (api : List Char → Option (List ℚ)) (s : EmbedState)
    (text model : List Char) (v1 : List ℚ) (s1 : EmbedState)
    (hredis : s.redisOn = true)
    (h1 : embed_single api s text model = .ok (v1, s1)) :
    embed_single api s1 text model =
      .ok (v1, { s1 with cacheHits := s1.cacheHits + 1 }) := by
  unfold embed_single at h1 ⊢
  by_cases hempty : (pyStrip text).isEmpty = true
  · rw [if_pos hempty] at h1; exact absurd h1 (by simp)
  · rw [if_neg hempty] at h1 ⊢
    by_cases hlong : 32000 < (pyStrip text).length
    · rw [if_pos hlong] at h1; exact absurd h1 (by simp)
    · rw [if_neg hlong] at h1 ⊢
      simp only at h1 ⊢
      -- analyse the first call
      rw [show getCached s (cacheKey (pyStrip text) model) =
          (if s.redisOn = true then
            match List.lookup (cacheKey (pyStrip text) model) s.cache with
            | some v => (some v, { s with cacheHits := s.cacheHits + 1 })
            | none => (none, { s with cacheMisses := s.cacheMisses + 1 })
          else (none, s)) from rfl, if_pos hredis] at h1
      have key := cacheKey (pyStrip text) model
      -- facts needed about s1 to compute the second call
      have hfacts : s1.redisOn = true ∧
          List.lookup (cacheKey (pyStrip text) model) s1.cache = some v1 ∧
          v1.isEmpty = false := by
        cases hlk : List.lookup (cacheKey (pyStrip text) model) s.cache with
        | some v =>
          rw [hlk] at h1
          simp only at h1
          by_cases hvemp : v.isEmpty = true
          · rw [if_pos hvemp] at h1
            have := apiFetch_ok api (pyStrip text) (cacheKey (pyStrip text) model)
              { s with cacheHits := s.cacheHits + 1 } v1 s1 h1
            exact ⟨by rw [this.2.1]; exact hredis, this.2.2.2 hredis, this.1⟩
          · rw [if_neg hvemp] at h1
            have hv : v = v1 := by
              have := congrArg (fun x => match x with
                | Except.ok (p : List ℚ × EmbedState) => p.1
                | Except.error _ => []) h1
              simpa using this
            have hs1 : s1 = { s with cacheHits := s.cacheHits + 1 } := by
              have := congrArg (fun x => match x with
                | Except.ok (p : List ℚ × EmbedState) => p.2
                | Except.error _ => s1) h1
              simpa using this.symm
            subst hv
            exact ⟨by rw [hs1]; exact hredis, by rw [hs1]; exact hlk,
              by simpa using hvemp⟩
        | none =>
          rw [hlk] at h1
          simp only at h1
          have := apiFetch_ok api (pyStrip text) (cacheKey (pyStrip text) model)
            { s with cacheMisses := s.cacheMisses + 1 } v1 s1 h1
          exact ⟨by rw [this.2.1]; exact hredis, this.2.2.2 hredis, this.1⟩
      -- compute the second call: a cache hit
      rw [show getCached s1 (cacheKey (pyStrip text) model) =
          (if s1.redisOn = true then
            match List.lookup (cacheKey (pyStrip text) model) s1.cache with
            | some v => (some v, { s1 with cacheHits := s1.cacheHits + 1 })
            | none => (none, { s1 with cacheMisses := s1.cacheMisses + 1 })
          else (none, s1)) from rfl, if_pos hfacts.1, hfacts.2.1]
      simp only
      rw [if_neg (by rw [hfacts.2.2]; exact Bool.false_ne_true)]

def wApi : List Char → Option (List ℚ) := fun _ => some [1]

def wState0 : EmbedState :=
  { redisOn := true, cache := [], cacheHits := 0, cacheMisses := 0,
    apiCalls := 0, apiErrors := 0, generated := 0 }

def wState1 : EmbedState :=
  { redisOn := true, cache := [(cacheKey (pyStrip "hi".data) "m".data, [1])],
    cacheHits := 0, cacheMisses := 1, apiCalls := 1, apiErrors := 0, generated := 1 }

/-- Witness for C5: a concrete first call misses, calls the model once and
stores the vector; the repeat call is a hit with the identical vector and
no further API call. -/
theorem claim_C5_witness :
    embed_single wApi wState0 "hi".data "m".data = .ok ([1], wState1) ∧
    embed_single wApi wState1 "hi".data "m".data =
      .ok ([1], { wState1 with cacheHits := wState1.cacheHits + 1 }) :=
  ⟨by rfl, claim_C5_embedding_cache wApi wState0 "hi".data "m".data [1] wState1 rfl (by rfl)⟩

end V3Embed

/-! ## Agent (`src/v3-main/src/agent.py`)

`classify_intent` (Claude call with 5 s timeout, rule-based fallback),
`_rule_based_intent_classification`, `_route_to_agent`'s
`needs_dms_call`, `_call_dms_tools` (10 s timeout, errors recorded, never
raised), and the context-assembly step of `process_query`. The chat model
and DMS adapter outcomes are oracle inputs; Python's `float()` parser is
the `parseFloat` parameter.
-/

namespace V3Agent

inductive IntentType where
  | sales
  | service
  | inventory
  | predictive
  | general
deriving DecidableEq

structure AgentIntent where
  intent : IntentType
  confidence : ℚ
  subIntent : Option (List Char)
deriving DecidableEq

def salesKeywords : List (List Char) :=
  ["price".data, "cost".data, "finance".data, "payment".data, "deal".data,
   "buy".data, "purchase".data]

def serviceKeywords : List (List Char) :=
  ["service".data, "repair".data, "maintenance".data, "oil change".data,
   "tire".data, "brake".data, "appointment".data]

def inventoryKeywords : List (List Char) :=
  ["available".data, "stock".data, "inventory".data, "have".data,
   "show me".data, "find".data, "vin".data]

def predictiveKeywords : List (List Char) :=
  ["forecast".data, "predict".data, "trend".data, "demand".data,
   "analytics".data, "future".data, "projection".data]

def allTriggerKeywords : List (List Char) :=
  salesKeywords ++ serviceKeywords ++ inventoryKeywords ++ predictiveKeywords

def containsAny (q : List Char) (kws : List (List Char)) : Bool :=
  kws.any (fun kw => containsSub q kw)

/-- `AgenticRAG._rule_based_intent_classification`. -/
def ruleBasedIntentClassification (query : List Char) : AgentIntent :=
  let ql := pyLower query
  if containsAny ql salesKeywords then
    { intent := .sales, confidence := 3/4, subIntent := some "pricing".data }
  else if containsAny ql serviceKeywords then
    { intent := .service, confidence := 3/4, subIntent := some "maintenance".data }
  else if containsAny ql inventoryKeywords then
    { intent := .inventory, confidence := 3/4, subIntent := some "availability".data }
  else if containsAny ql predictiveKeywords then
    { intent := .predictive, confidence := 3/4, subIntent := some "forecast".data }
  else
    { intent := .general, confidence := 3/5, subIntent := none }

/-- Python `s.split(sep)` for a one-character separator. -/
def splitOnChar (sep : Char) : List Char → List (List Char)
  | [] => [[]]
  | c :: t =>
    let r := splitOnChar sep t
    if c = sep then [] :: r
    else
      match r with
      | h :: rest => (c :: h) :: rest
      | [] => [[c]]

/-- `intent_map.get(intent, IntentType.GENERAL)`. -/
def intentMapGet (s : List Char) : IntentType :=
  if s = "sales".data then .sales
  else if s = "service".data then .service
  else if s = "inventory".data then .inventory
  else if s = "predictive".data then .predictive
  else .general

/-- Outcome of the guarded Claude call (`asyncio.timeout(5.0)` around
`messages.create`): either the reply text, or any error / timeout. -/
inductive ChatOutcome where
  | ok (reply : List Char)
  | failed
deriving DecidableEq

/-- `AgenticRAG.classify_intent`. Any exception — API failure, the 5 s
timeout, a `ValueError` from tuple unpacking or from `float()` — lands in
the `except` clause and falls back to the rule-based classifier. -/
def classify_intent (parseFloat : List Char → Option ℚ) (outcome : ChatOutcome)
    (query : List Char) : AgentIntent :=
  match outcome with
  | .failed => ruleBasedIntentClassification query
  | .ok replyRaw =>
    let result := pyStrip replyRaw
    if containsSub result ['|'] then
      match splitOnChar '|' result with
      | [intentStr, confStr] =>
        match parseFloat confStr with
        | some confidence =>
          { intent := intentMapGet intentStr, confidence := confidence, subIntent := none }
        | none => ruleBasedIntentClassification query
      | _ => ruleBasedIntentClassification query
    else
      { intent := intentMapGet (pyLower result), confidence := 1/2, subIntent := none }

theorem ruleBased_price_trigger (query : List Char)
    (hprice : containsSub (pyLower query) "price".data = true) :
    ruleBasedIntentClassification query =
      { intent := .sales, confidence := 3/4, subIntent := some "pricing".data } := by
  unfold ruleBasedIntentClassification
  have hsales : containsAny (pyLower query) salesKeywords = true := by
    apply List.any_eq_true.mpr
    exact ⟨"price".data, by simp [salesKeywords], hprice⟩
  simp only [hsales, if_pos]

theorem ruleBased_no_trigger (query : List Char)
    (hnone : ∀ kw ∈ allTriggerKeywords, containsSub (pyLower query) kw = false) :
    ruleBasedIntentClassification query =
      { intent := .general, confidence := 3/5, subIntent := none } := by
  unfold ruleBasedIntentClassification
  have hno : ∀ kws, (∀ kw ∈ kws, kw ∈ allTriggerKeywords) →
      containsAny (pyLower query) kws = false := by
    intro kws hsub
    apply List.any_eq_false.mpr
    intro kw hkw
    simp [hnone kw (hsub kw hkw)]
  simp only [hno salesKeywords (by intro kw hkw; simp [allTriggerKeywords, hkw]),
    hno serviceKeywords (by intro kw hkw; simp [allTriggerKeywords, hkw]),
    hno inventoryKeywords (by intro kw hkw; simp [allTriggerKeywords, hkw]),
    hno predictiveKeywords (by intro kw hkw; simp [allTriggerKeywords, hkw])]
  simp

end V3Agent

/-- C6 counterexample: a malformed chat reply WITHOUT a pipe (here
"garbage") does not fall back to the rules — the lenient parse takes the
reply itself as the intent label, `intent_map.get` defaults to GENERAL
and the confidence is hard-coded 0.5 — so a query containing the sales
trigger "price" yields general/0.5 instead of the claimed sales/0.75
rule-based result. -/
theorem claim_C6_counterexample :
    V3Agent.classify_intent (fun _ => none) (.ok "garbage".data) "what is the price".data =
      { intent := .general, confidence := 1/2, subIntent := none } ∧
    V3Agent.classify_intent (fun _ => none) (.ok "garbage".data) "what is the price".data ≠
      V3Agent.ruleBasedIntentClassification "what is the price".data := by
  constructor
  · rfl
  · intro h
    have h1 : V3Agent.classify_intent (fun _ => none) (.ok "garbage".data)
        "what is the price".data =
        { intent := .general, confidence := 1/2, subIntent := none } := rfl
    have h2 : V3Agent.ruleBasedIntentClassification "what is the price".data =
        { intent := .sales, confidence := 3/4, subIntent := some "pricing".data } := by rfl
    rw [h1, h2] at h
    have h3 : V3Agent.IntentType.general = V3Agent.IntentType.sales :=
      congrArg V3Agent.AgentIntent.intent h
    exact absurd h3 (by decide)

/-- C6 (amended): `classify_intent` falls back to rule-based substring
matching whenever the chat classification raises — the model call errors
or times out, or the reply contains "|" but does not split into exactly
two parts, or its confidence part fails `float()` — and then a query
containing the sales trigger "price" yields sales/0.75 while a query
containing no trigger yields general/0.60. A malformed reply without a
"|" is not such a case: it is leniently parsed to general with
confidence 0.5. -/
theorem claim_C6_rule_fallback (parseFloat : List Char → Option ℚ)
    (query : List Char) (outcome : V3Agent.ChatOutcome)
    (hraise : outcome = .failed ∨
      ∃ r, outcome = .ok r ∧ containsSub (pyStrip r) ['|'] = true ∧
        ∀ a b, V3Agent.splitOnChar '|' (pyStrip r) = [a, b] → parseFloat b = none) :
    V3Agent.classify_intent parseFloat outcome query =
      V3Agent.ruleBasedIntentClassification query ∧
    (containsSub (pyLower query) "price".data = true →
      V3Agent.classify_intent parseFloat outcome query =
        { intent := .sales, confidence := 3/4, subIntent := some "pricing".data }) ∧
    ((∀ kw ∈ V3Agent.allTriggerKeywords, containsSub (pyLower query) kw = false) →
      V3Agent.classify_intent parseFloat outcome query =
        { intent := .general, confidence := 3/5, subIntent := none }) := by
  have hfb : V3Agent.classify_intent parseFloat outcome query =
      V3Agent.ruleBasedIntentClassification query := by
    rcases hraise with h | ⟨r, hr, hpipe, hfloat⟩
    · rw [h]
      rfl
    · rw [hr]
      show (if containsSub (pyStrip r) ['|'] = true then
          match V3Agent.splitOnChar '|' (pyStrip r) with
          | [intentStr, confStr] =>
            match parseFloat confStr with
            | some confidence =>
              { intent := V3Agent.intentMapGet intentStr, confidence := confidence,
                subIntent := none }
            | none => V3Agent.ruleBasedIntentClassification query
          | _ => V3Agent.ruleBasedIntentClassification query
        else
          { intent := V3Agent.intentMapGet (pyLower (pyStrip r)), confidence := 1/2,
            subIntent := none }) = V3Agent.ruleBasedIntentClassification query
      rw [if_pos hpipe]
      cases hsp : V3Agent.splitOnChar '|' (pyStrip r) with
      | nil => rfl
      | cons a tail =>
        cases tail with
        | nil => rfl
        | cons b tail2 =>
          cases tail2 with
          | nil =>
            have hf := hfloat a b hsp
            simp only [hf]
          | cons c tail3 => rfl
  refine ⟨hfb, fun hp => ?_, fun hn => ?_⟩
  · rw [hfb]
    exact V3Agent.ruleBased_price_trigger query hp
  · rw [hfb]
    exact V3Agent.ruleBased_no_trigger query hn

/-- Witness for C6: the reply "SALES|high", whose confidence part fails
`float()`, falls back to the rules and classifies the query "what is the
price" as sales/0.75; a failed chat call classifies "hello" (no
trigger) as general/0.60. -/
theorem claim_C6_witness :
    V3Agent.classify_intent (fun _ => none) (.ok "SALES|high".data) "what is the price".data =
      { intent := .sales, confidence := 3/4, subIntent := some "pricing".data } ∧
    V3Agent.classify_intent (fun _ => none) .failed "hello".data =
      { intent := .general, confidence := 3/5, subIntent := none } :=
  ⟨(claim_C6_rule_fallback (fun _ => none) "what is the price".data (.ok "SALES|high".data)
      (Or.inr ⟨"SALES|high".data, rfl, by decide, fun _ _ _ => rfl⟩)).2.1 (by decide),
   (claim_C6_rule_fallback (fun _ => none) "hello".data .failed (Or.inl rfl)).2.2 (by decide)⟩

namespace V3Agent

/-- Outcome of the adapter call inside `asyncio.timeout(10.0)`:
a serialized successful tool result, an exception, or the timeout. -/
inductive DMSOutcome where
  | ok (payload : List Char)
  | err (msg : List Char)
  | timeout
deriving DecidableEq

/-- The dictionary `_call_dms_tools` returns. `renderDms` below stands in
for Python's `str(dict)` serialization: it lists the dict's values in
order, which is all the claims rely on (the error text occurs verbatim
in the rendering). -/
structure DmsData where
  toolName : List Char
  resultPart : List Char
  errorPart : Option (List Char)
deriving DecidableEq

def renderDms (d : DmsData) : List Char :=
  d.toolName ++ ": ".data ++ d.resultPart ++
    (match d.errorPart with
     | some e => " error: ".data ++ e
     | none => [])

/-- `AgenticRAG._call_dms_tools`: every exception and the 10 s timeout
are caught and returned as data — nothing propagates. -/
def call_dms_tools (intent : IntentType) (outcome : DMSOutcome) : Option DmsData :=
  match outcome with
  | .timeout =>
    some { toolName := "dms_tool_call".data, resultPart := [],
           errorPart := some "DMS tool call timed out.".data }
  | .err m =>
    some { toolName := "dms_tool_call".data, resultPart := [], errorPart := some m }
  | .ok payload =>
    match intent with
    | .inventory => some { toolName := "get_inventory".data, resultPart := payload,
                           errorPart := none }
    | .service => some { toolName := "get_service_history".data,
                         resultPart := "Service information retrieved from DMS".data,
                         errorPart := none }
    | .sales => some { toolName := "get_sales_info".data, resultPart := payload,
                       errorPart := none }
    | _ => none

/-- `_route_to_agent`: `needs_dms_call` is set for sales, service and
inventory intents only. -/
def needsDmsCall : IntentType → Bool
  | .sales => true
  | .service => true
  | .inventory => true
  | _ => false

/-- A retrieved-context document as assembled in `process_query`. -/
structure CtxDoc where
  content : List Char
  source : List Char
  toolCalled : List Char
deriving DecidableEq

/-- `Document(page_content=f"DMS Tool Result:\n{dms_data}",
metadata={"source": "DMS", "tool_called": ...})`. -/
def dmsDoc (d : DmsData) : CtxDoc :=
  { content := "DMS Tool Result:\n".data ++ renderDms d,
    source := "DMS".data,
    toolCalled := d.toolName }

/-- Step 4 of `AgenticRAG.process_query`: when the intent needs a DMS
call, invoke the adapter and, if it returned data (success or recorded
failure alike), prepend the synthetic DMS document to the retrieved
context. -/
def process_query (intent : IntentType) (retrieved : List CtxDoc)
    (outcome : DMSOutcome) : List CtxDoc :=
  if needsDmsCall intent then
    match call_dms_tools intent outcome with
    | some d => dmsDoc d :: retrieved
    | none => retrieved
  else retrieved

end V3Agent

/-- C8: for every query whose intent is sales, service or inventory,
`process_query` invokes the DMS adapter; a synthetic document with source
"DMS" is prepended to the retrieved context, and on any DMS error or
timeout the error text is recorded in that context document instead — no
exception from the DMS call ever aborts the pipeline (the call always
yields a context list). -/
theorem claim_C8_dms_isolation (intent : V3Agent.IntentType)
    (retrieved : List V3Agent.CtxDoc) (outcome : V3Agent.DMSOutcome)
    (h : intent = .sales ∨ intent = .service ∨ intent = .inventory) :
    ∃ d, V3Agent.call_dms_tools intent outcome = some d ∧
      V3Agent.process_query intent retrieved outcome = V3Agent.dmsDoc d :: retrieved ∧
      (V3Agent.dmsDoc d).source = "DMS".data ∧
      (∀ m, outcome = .err m → containsSub (V3Agent.dmsDoc d).content m = true) ∧
      (outcome = .timeout →
        containsSub (V3Agent.dmsDoc d).content "DMS tool call timed out.".data = true) := by
  have hneeds : V3Agent.needsDmsCall intent = true := by
    rcases h with h | h | h <;> rw [h] <;> rfl
  have hcontains : ∀ (tn rp m : List Char),
      containsSub (V3Agent.dmsDoc
        { toolName := tn, resultPart := rp, errorPart := some m }).content m = true := by
    intro tn rp m
    show containsSub ("DMS Tool Result:\n".data ++
      (tn ++ ": ".data ++ rp ++ (" error: ".data ++ m))) m = true
    apply containsSub_append_right
    apply containsSub_append_right
    apply containsSub_append_right
    exact containsSub_self m
  cases outcome with
  | ok payload =>
    rcases h with h | h | h <;> subst h <;>
      exact ⟨_, rfl,
        And.intro
          (by simp [V3Agent.process_query, V3Agent.needsDmsCall, V3Agent.call_dms_tools])
          (And.intro rfl
            (And.intro (fun m hm => by cases hm) (fun hm => by cases hm)))⟩
  | err m =>
    exact ⟨_, rfl,
      And.intro
        (by simp [V3Agent.process_query, hneeds, V3Agent.call_dms_tools])
        (And.intro rfl
          (And.intro
            (fun m' hm' => by
              have hmm : m = m' := by cases hm'; rfl
              subst hmm
              exact hcontains _ _ m)
            (fun hm => by cases hm)))⟩
  | timeout =>
    exact ⟨_, rfl,
      And.intro
        (by simp [V3Agent.process_query, hneeds, V3Agent.call_dms_tools])
        (And.intro rfl
          (And.intro (fun m hm => by cases hm) (fun _ => hcontains _ _ _)))⟩

namespace V3Agent

def wDmsErr : DmsData :=
  { toolName := "dms_tool_call".data, resultPart := [],
    errorPart := some "connection refused".data }

end V3Agent

/-- Witness for C8: a sales-intent query whose DMS call raises is still
answered — the error is recorded in a prepended context document with
source "DMS". -/
theorem claim_C8_witness :
    V3Agent.process_query .sales [] (.err "connection refused".data) =
      [V3Agent.dmsDoc V3Agent.wDmsErr] ∧
    containsSub (V3Agent.dmsDoc V3Agent.wDmsErr).content "connection refused".data = true := by
  obtain ⟨d, h1, h2, _, h4, _⟩ :=
    claim_C8_dms_isolation .sales [] (.err "connection refused".data) (Or.inl rfl)
  have hd : d = V3Agent.wDmsErr := by
    have hr : V3Agent.call_dms_tools .sales (.err "connection refused".data) =
        some V3Agent.wDmsErr := rfl
    rw [hr] at h1
    exact (Option.some.inj h1).symm
  constructor
  · rw [← hd]
    exact h2
  · rw [← hd]
    exact h4 "connection refused".data rfl

/-! ## Query sanitization (`src/src/models.py`, `QueryRequest.sanitize_query`)

The sanitizer's regex substitutions are implemented directly (each one
deterministic for its pattern): remove `[<>]`, strip
`<script[^>]*>.*?</script>` (case-insensitive, DOTALL, leftmost
shortest), strip `on\w+\s*=`, strip `(;|\b(DROP|DELETE|INSERT|UPDATE|
EXEC|UNION|SELECT)\b)` (case-insensitive, word boundaries against the
original text), then `strip()` and collapse `\s+` to one space.
`html.unescape` is Python-stdlib and is passed in as a function
parameter. All loops are fuelled by the input length (every step
consumes at least one character). -/

namespace SrcModels

/-- The `while prev != current and iterations < 5` HTML-entity-decode
loop. -/
def unescapeIter (f : List Char → List Char) : Nat → List Char → List Char → List Char
  | 0, _, cur => cur
  | fuel + 1, prev, cur => if prev = cur then cur else unescapeIter f fuel cur (f cur)

/-- `re.sub(r'[<>]', '', …)`. -/
def removeAngles (s : List Char) : List Char :=
  s.filter (fun c => !(c = '<' || c = '>'))

def lowerEq (a b : Char) : Bool := a.toLower = b.toLower

/-- Case-insensitive prefix test. -/
def isPrefixCI : List Char → List Char → Bool
  | [], _ => true
  | _ :: _, [] => false
  | p :: ps, c :: cs => lowerEq p c && isPrefixCI ps cs

/-- Consume `[^>]*>`: drop through the first `'>'`. -/
def dropThroughGt : List Char → Option (List Char)
  | [] => none
  | c :: t => if c = '>' then some t else dropThroughGt t

/-- Consume `.*?</script>` (shortest, DOTALL): drop through the first
case-insensitive `</script>`. -/
def dropThroughCloseCI : List Char → Option (List Char)
  | [] => none
  | c :: t =>
    if isPrefixCI "</script>".data (c :: t) then some ((c :: t).drop 9)
    else dropThroughCloseCI t

/-- `re.sub(r'<script[^>]*>.*?</script>', '', …, IGNORECASE | DOTALL)`. -/
def stripScriptTags : Nat → List Char → List Char
  | 0, s => s
  | _ + 1, [] => []
  | fuel + 1, c :: t =>
    if isPrefixCI "<script".data (c :: t) then
      match dropThroughGt ((c :: t).drop 7) with
      | some rest1 =>
        match dropThroughCloseCI rest1 with
        | some rest2 => stripScriptTags fuel rest2
        | none => c :: stripScriptTags fuel t
      | none => c :: stripScriptTags fuel t
    else c :: stripScriptTags fuel t

/-- Python `\w` (ASCII-adequate for the inputs considered here). -/
def isWordChar (c : Char) : Bool := c.isAlphanum || c = '_'

/-- Maximal `\w` run: its length and the remainder. -/
def dropWordRun : List Char → Nat × List Char
  | [] => (0, [])
  | c :: t =>
    if isWordChar c then
      let p := dropWordRun t
      (p.1 + 1, p.2)
    else (0, c :: t)

/-- `re.sub(r'on\w+\s*=', '', …, IGNORECASE)`. The greedy `\w+` and
`\s*` admit no backtracking (`=` is neither a word nor a space
character), so maximal runs decide the match. -/
def stripOnHandlers : Nat → List Char → List Char
  | 0, s => s
  | _ + 1, [] => []
  | fuel + 1, c :: t =>
    if isPrefixCI "on".data (c :: t) then
      let p := dropWordRun ((c :: t).drop 2)
      if 0 < p.1 then
        match p.2.dropWhile Char.isWhitespace with
        | '=' :: rest => stripOnHandlers fuel rest
        | _ => c :: stripOnHandlers fuel t
      else c :: stripOnHandlers fuel t
    else c :: stripOnHandlers fuel t

def sqlVerbs : List (List Char) :=
  ["drop".data, "delete".data, "insert".data, "update".data, "exec".data,
   "union".data, "select".data]

/-- A SQL verb matching case-insensitively at the head, with a word
boundary after it; returns its length. -/
def tryVerb (s : List Char) : Option Nat :=
  sqlVerbs.findSome? fun v =>
    if isPrefixCI v s then
      match s.drop v.length with
      | [] => some v.length
      | c :: _ => if isWordChar c then none else some v.length
    else none

/-- `re.sub(r'(;|\b(DROP|DELETE|INSERT|UPDATE|EXEC|UNION|SELECT)\b)', '',
…, IGNORECASE)`; `prev` is the previous character of the original text,
against which the leading word boundary is evaluated. -/
def stripSqlAux : Nat → Option Char → List Char → List Char
  | 0, _, s => s
  | _ + 1, _, [] => []
  | fuel + 1, prev, c :: t =>
    if c = ';' then stripSqlAux fuel (some ';') t
    else
      let boundaryBefore :=
        match prev with
        | none => true
        | some p => !isWordChar p
      if boundaryBefore then
        match tryVerb (c :: t) with
        | some n =>
          match (c :: t).drop (n - 1) with
          | p :: rest => stripSqlAux fuel (some p) rest
          | [] => []
        | none => c :: stripSqlAux fuel (some c) t
      else c :: stripSqlAux fuel (some c) t

/-- `re.sub(r'\s+', ' ', …)`: collapse whitespace runs to single spaces. -/
def collapseWsAux : Bool → List Char → List Char
  | _, [] => []
  | inRun, c :: t =>
    if c.isWhitespace then
      if inRun then collapseWsAux true t else ' ' :: collapseWsAux true t
    else c :: collapseWsAux false t

/-- `QueryRequest.sanitize_query` (field validator). -/
def sanitize_query (unescape : List Char → List Char) (v : List Char) : List Char :=
  let current := unescapeIter unescape 5 [] v
  let s1 := removeAngles current
  let s2 := stripScriptTags s1.length s1
  let s3 := stripOnHandlers s2.length s2
  let s4 := stripSqlAux s3.length none s3
  let s5 := pyStrip s4
  collapseWsAux false s5

end SrcModels

/-- C7 counterexample: the query consisting solely of
`<script>alert()</script>` (no HTML entities, so `html.unescape` is the
identity on it) does NOT sanitize to the empty string: the angle
brackets are removed first, which makes the script-tag pattern
unmatchable. -/
theorem claim_C7_counterexample :
    SrcModels.sanitize_query (fun s => s) "<script>alert()</script>".data ≠ [] := by
  decide

/-- C7 (amended): the sanitizer strips `<` and `>` before applying the
`<script>…</script>` pattern, so the query `<script>alert()</script>`
sanitizes to the non-empty string `scriptalert()/script` and the request
is not rejected. -/
theorem claim_C7_sanitizer_result :
    SrcModels.sanitize_query (fun s => s) "<script>alert()</script>".data =
      "scriptalert()/script".data := by
  decide
